import Mathlib

/-!
Verification development for the hybrid retrieval engine of the
clinical-graphrag-pro backend.

The definitions below are a shallow embedding, translated from the Python
sources:

* `backend/app/services/query_engine.py`  (class `QueryEngine`)
* `backend/app/services/reranker.py`      (class `RerankerService`)
* `backend/app/services/bm25_index.py`    (class `BM25Index`)
* `backend/app/services/vector_store.py`  (class `VectorStoreService`)

Modelling conventions:

* Python floats are modelled as rationals (`ℚ`); all arithmetic the engine
  performs on scores (reciprocal-rank sums, comparisons) is exact, so the
  rational model is faithful.
* External collaborators (the FAISS index together with the embedding model,
  the BM25 statistics object `BM25Okapi`, the LLM used for query expansion,
  and the cross-encoder pairwise scorer) are parameters of the embedding:
  they enter as plain functions or as `Except` values describing the outcome
  of the call (`Except.error` models a raised exception).
* Python `list.sort(key=..., reverse=True)` and
  `sorted(..., key=..., reverse=True)` are stable descending sorts; they are
  modelled by `List.insertionSort` with the relation `key b ≤ key a`, which
  is the standard stable sort of Mathlib (stable sorts agree on output).
* Python insertion-ordered `dict`s are modelled as association lists to which
  new keys are appended on the right.
-/

namespace ClinicalRag

/-- ASCII whitespace, matching the characters Python `str.split()`,
`str.strip()` and the regex class `\s` treat as whitespace. -/
def isSpace (c : Char) : Bool :=
  c = ' ' || c = '\t' || c = '\n' || c = '\r' || c = '\x0b' || c = '\x0c'

/-- Word character of the Python regex class `\w` (ASCII range):
letters, digits and underscore. -/
def isWordChar (c : Char) : Bool :=
  c.isAlphanum || c = '_'

/-- Stable descending sort by a rational key.  This models Python
`sort(key=key, reverse=True)`: Python sorting is stable, and
`List.insertionSort` with this relation is the stable sort that places an
element before the first element of strictly smaller key, preserving the
original order among equal keys exactly as CPython does. -/
def sortDescBy {α : Type} (key : α → ℚ) (l : List α) : List α :=
  List.insertionSort (fun a b => key b ≤ key a) l

theorem sortDescBy_perm {α : Type} (key : α → ℚ) (l : List α) :
    (sortDescBy key l).Perm l :=
  List.perm_insertionSort _ l

theorem sortDescBy_sorted {α : Type} (key : α → ℚ) (l : List α) :
    List.Pairwise (fun a b => key b ≤ key a) (sortDescBy key l) := by
  have htot : IsTotal α (fun a b => key b ≤ key a) := ⟨fun a b => le_total (key b) (key a)⟩
  have htrans : IsTrans α (fun a b => key b ≤ key a) :=
    ⟨fun _ _ _ h1 h2 => le_trans h2 h1⟩
  exact @List.sorted_insertionSort α _ _ htot htrans l

/-! ### Records shared by the retrieval services

`SearchResult` is `vector_store.SearchResult` (a NamedTuple); the BM25 index
returns dicts with exactly the same five keys, so the same record is used for
both rankers.  `chunk_index` is a natural number: it is produced by
`enumerate` over the chunks of a document. -/

structure SearchResult where
  chunk_text : String
  chunk_index : ℕ
  document_id : String
  document_name : String
  score : ℚ
deriving DecidableEq

/-- Candidate dict built by `QueryEngine.query` during multi-query retrieval
(`query_engine.py` lines 82-90 and 98-106).  The code initialises `score` to
`0.0` and `vector_rank` / `bm25_rank` to `None`; the two rank fields are
never written afterwards. -/
structure Candidate where
  chunk_text : String
  chunk_index : ℕ
  document_id : String
  document_name : String
  score : ℚ
  vector_rank : Option ℕ
  bm25_rank : Option ℕ
deriving DecidableEq

/-- The NamedTuple `reranker.RankedResult`. -/
structure RankedResult where
  chunk_text : String
  chunk_index : ℕ
  document_id : String
  document_name : String
  original_score : ℚ
  rerank_score : ℚ
deriving DecidableEq

/-- Final result record of `QueryEngine.query`.  The two branches of the
code build dicts of different shapes: the reranking branch builds a fresh
six-key dict (lines 135-145), while the fallthrough branch returns the
candidate dicts unchanged (lines 150 and 152). -/
inductive ResultRecord where
  | fromCandidate (c : Candidate)
  | fromReranked (chunk_text : String) (chunk_index : ℕ)
      (document_id : String) (document_name : String)
      (score : ℚ) (original_score : ℚ)
deriving DecidableEq

/-- Dedup key used by `QueryEngine.query` and `_rrf_merge`: the Python
f-string `f"{document_id}:{chunk_index}"`. -/
def keyOf (document_id : String) (chunk_index : ℕ) : String :=
  document_id ++ ":" ++ toString chunk_index

def srKey (r : SearchResult) : String := keyOf r.document_id r.chunk_index

def candKey (c : Candidate) : String := keyOf c.document_id c.chunk_index

/-- Candidate dict created on first sight of a key (`query_engine.py`
lines 82-90): score starts at `0.0`, both rank fields at `None`. -/
def toCandidate (r : SearchResult) : Candidate :=
  { chunk_text := r.chunk_text
    chunk_index := r.chunk_index
    document_id := r.document_id
    document_name := r.document_name
    score := 0
    vector_rank := none
    bm25_rank := none }

/-! ### Reciprocal Rank Fusion (`QueryEngine._rrf_merge`) -/

/-- Rank map built by the dict loop
`for rank, r in enumerate(results): ranks[key] = rank`
(`query_engine.py` lines 180-188).  A later occurrence of the same key
overwrites an earlier one, which the function-update fold reproduces. -/
def buildRankMap (results : List SearchResult) : String → Option ℕ :=
  (results.enum).foldl
    (fun acc p => fun key => if key = srKey p.2 then some p.1 else acc key)
    (fun _ => none)

/-- One ranker contribution to the RRF score:
`1.0 / (k + rank)` when the key is present, `0.0` when absent
(`query_engine.py` lines 193-198). -/
def rrfContrib (k : ℕ) (r : Option ℕ) : ℚ :=
  match r with
  | some rank => 1 / ((k : ℚ) + rank)
  | none => 0

/-- Embedding of `QueryEngine._rrf_merge`.  The fresh vector and BM25
rankings it computes against the original query are passed in as the two
result lists.  Every candidate gets `score := ` sum of the two reciprocal
rank contributions, then the list is sorted by score, descending and stable
(`candidates.sort(key=..., reverse=True)`).  Note: the Python function does
not truncate to `fetch_k`. -/
def rrfMerge (vectorResults bm25Results : List SearchResult)
    (candidates : List Candidate) (k : ℕ) : List Candidate :=
  sortDescBy (fun c => c.score)
    (candidates.map (fun c =>
      { c with score :=
          rrfContrib k (buildRankMap vectorResults (candKey c))
            + rrfContrib k (buildRankMap bm25Results (candKey c)) }))

/-! ### Reranker (`RerankerService.rerank`) -/

/-- Embedding of `RerankerService.rerank`.  `model = none` models the case
in which `_get_model` raises (cross-encoder not loadable): the function then
returns the first `top_k` candidates unchanged, with both scores copied from
the candidate score (`reranker.py` lines 62-77).  With a loaded model it
scores every (query, passage) pair, sorts by rerank score descending and
truncates to `top_k` (lines 79-99).  The candidate dicts always carry a
`score` key, so `c.get("score", 0.0)` is `c.score`. -/
def rerank (model : Option (String → String → ℚ)) (query : String)
    (candidates : List Candidate) (top_k : ℕ) : List RankedResult :=
  if candidates.isEmpty then []
  else
    match model with
    | none =>
        (candidates.take top_k).map (fun c =>
          { chunk_text := c.chunk_text
            chunk_index := c.chunk_index
            document_id := c.document_id
            document_name := c.document_name
            original_score := c.score
            rerank_score := c.score })
    | some scorer =>
        let scored := candidates.map (fun c =>
          ({ chunk_text := c.chunk_text
             chunk_index := c.chunk_index
             document_id := c.document_id
             document_name := c.document_name
             original_score := c.score
             rerank_score := scorer query c.chunk_text } : RankedResult))
        (sortDescBy (fun r => r.rerank_score) scored).take top_k

/-! ### Query expansion (`QueryEngine._expand_query`) -/

/-- Python `text.split("\n")`: split on each newline character, keeping
empty pieces. -/
def splitNl : List Char → List (List Char)
  | [] => [[]]
  | c :: cs =>
    if c = '\n' then [] :: splitNl cs
    else
      match splitNl cs with
      | p :: ps => (c :: p) :: ps
      | [] => [[c]]

/-- Python `str.strip()` over ASCII whitespace. -/
def stripL (cs : List Char) : List Char :=
  ((cs.dropWhile isSpace).reverse.dropWhile isSpace).reverse

/-- Embedding of `QueryEngine._expand_query` after the LLM call:
`generate` is the outcome of `llm_service.generate`.  Note that `llm.py`
(lines 73-98) catches collaborator errors and timeouts inside
`generate_stream` and returns a provider warning string instead of
raising, so those failures arrive here as an `ok` value carrying the
banner text; the `error` case models the residual situation of an
exception propagating out of `_expand_query`, which `query()` catches at
lines 68-69.  On a returned response the text is stripped, split on
newlines, each line stripped, lines that are non-empty and longer than 5
characters are kept, and the first `n` survivors are returned
(`query_engine.py` lines 218-230). -/
def expandQuery (generate : Except String String) (n : ℕ) :
    Except String (List String) :=
  match generate with
  | .error e => .error e
  | .ok response =>
      let lines := (splitNl (stripL response.data)).map stripL
      let alternatives := lines.filter (fun l => l ≠ [] ∧ l.length > 5)
      .ok ((alternatives.take n).map (fun l => String.mk l))

/-- Variant list built in step 1 of `QueryEngine.query` (lines 62-69):
`queries = [query]`, then, when expansion is enabled, the expanded variants
are appended; an exception from `_expand_query` is caught and logged, the
list stays `[query]`. -/
def buildQueries (generate : Except String String) (query : String)
    (expand_query : Bool) : List String :=
  if expand_query then
    match expandQuery generate 2 with
    | .ok expanded => query :: expanded
    | .error _ => [query]
  else [query]

/-- The warning text `llm_service.generate` returns when the Groq call
fails (raises or times out) for a non-rate-limit reason and Gemini is not
available (`llm.py` line 96): the collaborator failure is swallowed inside
`generate_stream` and this banner is the returned response. -/
def groqApiErrorBanner (groq_error : String) : String :=
  "⚠️ Groq API Error: " ++ groq_error

/-- The rate-limit variant of the returned warning (`llm.py` line 94). -/
def groqRateLimitBanner : String :=
  "⚠️ Groq Free Tier Rate Limit Exceeded (Too many tokens per minute). Please wait 60 seconds and try again!"

/-- The warning returned when no provider key is configured (`llm.py`
line 98). -/
def noProviderBanner : String :=
  "⚠️ No LLM provider available. Please configure GROQ_API_KEY or GOOGLE_API_KEY in your .env file."

/-! ### Multi-query retrieval and deduplication (`QueryEngine.query` step 2) -/

/-- The stream of search results inserted into `all_candidates`, in
insertion order: for each variant the dense results first and then, when
hybrid search is enabled, the sparse results (lines 76-106). -/
def candidateStream (vectorSearch bm25Search : String → ℕ → List SearchResult)
    (queries : List String) (fetch_k : ℕ) (use_hybrid : Bool) :
    List SearchResult :=
  queries.flatMap (fun q =>
    vectorSearch q fetch_k ++ (if use_hybrid then bm25Search q fetch_k else []))

/-- One `if key not in all_candidates: all_candidates[key] = ...` step:
the insertion-ordered dict is an association list, new keys appended on the
right. -/
def insertIfAbsent (m : List (String × Candidate)) (r : SearchResult) :
    List (String × Candidate) :=
  if m.any (fun p => p.1 = srKey r) then m
  else m ++ [(srKey r, toCandidate r)]

/-- The full `all_candidates` dict after the retrieval loop. -/
def collectCandidates (vectorSearch bm25Search : String → ℕ → List SearchResult)
    (queries : List String) (fetch_k : ℕ) (use_hybrid : Bool) :
    List (String × Candidate) :=
  (candidateStream vectorSearch bm25Search queries fetch_k use_hybrid).foldl
    insertIfAbsent []

/-- Dict lookup on the association list. -/
def lookupKey (m : List (String × Candidate)) (k : String) : Option Candidate :=
  (m.find? (fun p => p.1 = k)).map (fun p => p.2)

/-! ### The orchestrating pipeline (`QueryEngine.query`) -/

/-- The collaborators `QueryEngine.query` calls out to:
the dense search (`vector_store_service.search`), the sparse search
(`bm25_index.search`), the outcome of the `llm_service.generate` call made
by `_expand_query` (`llm.py` converts collaborator errors and timeouts
into a returned warning string, so they appear as an `ok` value carrying
the banner text, see `groqApiErrorBanner`; the `error` case models an
exception propagating out of `_expand_query`, caught at lines 68-69), and
the reranker call (`reranker_service.rerank`), whose `error` case models
`rerank` itself raising, which line 147 catches. -/
structure Env where
  vectorSearchFn : String → ℕ → List SearchResult
  bm25SearchFn : String → ℕ → List SearchResult
  generate : Except String String
  rerankCall : String → List Candidate → ℕ → Except Unit (List RankedResult)

/-- The dataclass `query_engine.EnrichedResult`. -/
structure EnrichedResult where
  query : String
  expanded_queries : List String
  results : List ResultRecord
  retrieval_method : String
  reranked : Bool
  total_candidates : ℕ
deriving DecidableEq

/-- Embedding of `QueryEngine.query` with the three stage toggles passed
explicitly (the Python defaults come from settings; the claims quantify over
the flags).  Follows `query_engine.py` lines 61-161 step by step:
expansion, multi-query retrieval into the dedup dict, RRF fusion or
vector-score sort, optional reranking, and assembly of `EnrichedResult`. -/
def queryPipeline (env : Env) (query : String) (top_k : ℕ)
    (use_reranking expand_query use_hybrid : Bool) : EnrichedResult :=
  let queries := buildQueries env.generate query expand_query
  let fetch_k := top_k * 3
  let all_candidates :=
    collectCandidates env.vectorSearchFn env.bm25SearchFn queries fetch_k use_hybrid
  let total_candidates := all_candidates.length
  if all_candidates.isEmpty then
    { query := query
      expanded_queries := queries.drop 1
      results := []
      retrieval_method := if use_hybrid then "hybrid" else "vector"
      reranked := false
      total_candidates := 0 }
  else
    let candidates_list :=
      if use_hybrid then
        rrfMerge (env.vectorSearchFn query fetch_k) (env.bm25SearchFn query fetch_k)
          (all_candidates.map (fun p => p.2)) 60
      else
        (sortDescBy (fun c => c.score) (all_candidates.map (fun p => p.2))).take fetch_k
    let step4 : List ResultRecord × Bool :=
      if use_reranking ∧ ¬ candidates_list.isEmpty then
        match env.rerankCall query candidates_list top_k with
        | .ok rr =>
            (rr.map (fun r => ResultRecord.fromReranked r.chunk_text r.chunk_index
                r.document_id r.document_name r.rerank_score r.original_score),
             true)
        | .error _ =>
            ((candidates_list.take top_k).map ResultRecord.fromCandidate, false)
      else
        ((candidates_list.take top_k).map ResultRecord.fromCandidate, use_reranking)
    { query := query
      expanded_queries := queries.drop 1
      results := step4.1
      retrieval_method := if use_hybrid then "hybrid" else "vector"
      reranked := step4.2
      total_candidates := total_candidates }

/-! ### BM25 sparse index (`bm25_index.py`) -/

/-- Character class `[\w-]` of the tokenizer regex. -/
def isTokenChar (c : Char) : Bool := isWordChar c || c = '-'

/-- Maximal runs of `[\w-]` characters, left to right. -/
def splitRunsAux : List Char → List Char → List (List Char)
  | [], cur => if cur = [] then [] else [cur.reverse]
  | c :: cs, cur =>
    if isTokenChar c then splitRunsAux cs (c :: cur)
    else if cur = [] then splitRunsAux cs []
    else cur.reverse :: splitRunsAux cs []

/-- Restriction of a `[\w-]` run to the span from its first to its last
`\w` character, which is what `re.findall(r'\b[\w-]+\b', text)` matches
inside the run: the leading `\b` forces the match to begin at a word
character and greedy matching with the trailing `\b` backtracks to the last
word character; a run without word characters gives no match. -/
def trimRun (run : List Char) : List Char :=
  ((run.dropWhile (fun c => !(isWordChar c))).reverse.dropWhile
    (fun c => !(isWordChar c))).reverse

/-- Embedding of `BM25Index._tokenize`: lowercase, find `\b[\w-]+\b`
matches (internal hyphens preserved), drop tokens of length at most 1. -/
def tokenize (text : String) : List String :=
  let runs := splitRunsAux (text.data.map Char.toLower) []
  let toks := (runs.map trimRun).filter (fun t => t ≠ [])
  (toks.map (fun t => String.mk t)).filter (fun t => t.length > 1)

/-- The chunk metadata dicts kept in parallel with the BM25 corpus and with
the FAISS vectors (`bm25_index.py` lines 83-89, `vector_store.py` lines
170-177).  The random `chunk_id` is an opaque token not used by search and
is omitted. -/
structure ChunkMeta where
  chunk_text : String
  chunk_index : ℕ
  document_id : String
  document_name : String
deriving DecidableEq

/-- State of a `BM25Index` at search time (after any lazy load):
the tokenized corpus, the parallel metadata, whether `self._index` is
non-None (it is `None` when the corpus is empty or `rank_bm25` failed to
import), and the scoring function of the external `BM25Okapi` object, which
returns one score per corpus document. -/
structure BM25State where
  corpus : List (List String)
  metadata : List ChunkMeta
  indexLoaded : Bool
  getScores : List String → List ℚ

/-- Embedding of `BM25Index.search` (lines 96-129): guard on a missing
index or empty corpus, guard on an empty tokenized query, score the corpus,
take the `top_k` indices by score (stable descending sort of
`range(len(scores))`), skip scores at most 0, and read the parallel
metadata.  The Python code indexes `self._metadata[idx]` directly; the
`Option` lookup here returns `none` exactly when that access would be out
of range, which cannot happen while metadata and corpus are appended in
lockstep by `add_document`. -/
def bm25Search (st : BM25State) (query : String) (top_k : ℕ) :
    List SearchResult :=
  if ¬ st.indexLoaded ∨ st.corpus = [] then []
  else
    let tokens := tokenize query
    if tokens = [] then []
    else
      let scores := st.getScores tokens
      let top_indices :=
        (sortDescBy (fun i => scores.getD i 0) (List.range scores.length)).take top_k
      top_indices.filterMap (fun idx =>
        if scores.getD idx 0 ≤ 0 then none
        else (st.metadata.get? idx).map (fun meta =>
          { chunk_text := meta.chunk_text
            chunk_index := meta.chunk_index
            document_id := meta.document_id
            document_name := meta.document_name
            score := scores.getD idx 0 }))

/-! ### Dense vector store search (`vector_store.py`) -/

/-- State of a `VectorStoreService` at search time: the metadata array
`self._chunks`, the number of indexed vectors `index.ntotal`, and the
behaviour of `index.search` composed with the query embedding, returning
`(score, position)` rows for the requested `k`.  FAISS positions are signed
(`-1` pads missing neighbours), hence `ℤ`. -/
structure VSState where
  chunks : List ChunkMeta
  ntotal : ℕ
  faissSearch : String → ℕ → List (ℚ × ℤ)

/-- Embedding of `VectorStoreService.search` (lines 183-211): empty index
short-circuits; otherwise the similarity structure is asked for
`min(top_k, ntotal)` neighbours and each returned position is skipped when
it is negative or not less than `len(self._chunks)`, otherwise resolved
against the metadata array. -/
def vectorSearch (st : VSState) (query : String) (top_k : ℕ) :
    List SearchResult :=
  if st.ntotal = 0 then []
  else
    (st.faissSearch query (min top_k st.ntotal)).filterMap (fun p =>
      if p.2 < 0 ∨ (st.chunks.length : ℤ) ≤ p.2 then none
      else (st.chunks.get? p.2.toNat).map (fun meta =>
        { chunk_text := meta.chunk_text
          chunk_index := meta.chunk_index
          document_id := meta.document_id
          document_name := meta.document_name
          score := p.1 }))

/-! ### Sentence-aware chunking (`VectorStoreService._split_sentences` and
`VectorStoreService.chunk_text`) -/

/-- The abbreviation alternatives of the regex
`\b(Dr|Mr|Mrs|Ms|Prof|Sr|Jr|vs|etc|e\.g|i\.e)\.\s`, in alternation order. -/
def abbrevList : List (List Char) :=
  ["Dr".data, "Mr".data, "Mrs".data, "Ms".data, "Prof".data, "Sr".data,
   "Jr".data, "vs".data, "etc".data, "e.g".data, "i.e".data]

/-- Does `cs` start with `a`, then a literal dot, then one whitespace
character?  Returns the number of characters the regex match consumes. -/
def matchAbbrev (a : List Char) (cs : List Char) : Option ℕ :=
  if (a ++ ['.']).isPrefixOf cs then
    match cs.drop (a.length + 1) with
    | w :: _ => if isSpace w then some (a.length + 2) else none
    | [] => none
  else none

/-- First alternative that lets the whole pattern match at this position,
as regex alternation tries them left to right.  Returns the replacement text
`\1<DOT> ` and the consumed length. -/
def tryAbbrevs : List (List Char) → List Char → Option (List Char × ℕ)
  | [], _ => none
  | a :: rest, cs =>
    match matchAbbrev a cs with
    | some k => some (a ++ "<DOT> ".data, k)
    | none => tryAbbrevs rest cs

/-- The pattern starts with `\b` followed by a word character, so a match
can only begin where the previous character is not a word character. -/
def tryAbbrev (prevIsWord : Bool) (cs : List Char) : Option (List Char × ℕ) :=
  if prevIsWord then none else tryAbbrevs abbrevList cs

/-- Left-to-right non-overlapping `re.sub` scan.  The fuel argument only
serves to make the recursion structural: every step consumes at least one
character (a match consumes at least three), so with fuel `cs.length` the
fuel never runs out. -/
def abbrevSubAux : ℕ → Bool → List Char → List Char
  | 0, _, cs => cs
  | _ + 1, _, [] => []
  | fuel + 1, prevIsWord, c :: cs =>
    match tryAbbrev prevIsWord (c :: cs) with
    | some (emit, k) => emit ++ abbrevSubAux fuel false ((c :: cs).drop k)
    | none => c :: abbrevSubAux fuel (isWordChar c) cs

/-- The substitution
`re.sub(r'\b(...)\.\s', r'\1<DOT> ', text)` of `_split_sentences`. -/
def abbrevSub (cs : List Char) : List Char := abbrevSubAux cs.length false cs

/-- Scan for `re.split(r'(?<=[.!?])\s+', text)`.  The first argument is
true while consuming a separator whitespace run; `prev` is the character
before the current position, checked by the lookbehind.  A separator at the
end of the input leaves a trailing empty piece, as `re.split` does. -/
def splitSentAux : Bool → Char → List Char → List Char → List (List Char)
  | false, _, cur, [] => [cur.reverse]
  | false, prev, cur, c :: cs =>
    if isSpace c ∧ (prev = '.' ∨ prev = '!' ∨ prev = '?') then
      cur.reverse :: splitSentAux true c [] cs
    else splitSentAux false c (c :: cur) cs
  | true, _, _, [] => [[]]
  | true, _, _, c :: cs =>
    if isSpace c then splitSentAux true c [] cs
    else splitSentAux false c [c] cs

/-- Python `s.replace('<DOT>', '.')`, left-to-right and non-overlapping.
Fuel as in `abbrevSubAux`: each step consumes at least one character. -/
def replaceDotAux : ℕ → List Char → List Char
  | 0, cs => cs
  | _ + 1, [] => []
  | fuel + 1, c :: cs =>
    if "<DOT>".data.isPrefixOf (c :: cs) then '.' :: replaceDotAux fuel (cs.drop 4)
    else c :: replaceDotAux fuel cs

def replaceDot (cs : List Char) : List Char := replaceDotAux cs.length cs

/-- Embedding of `VectorStoreService._split_sentences`: protect the listed
abbreviations, split after sentence-ending punctuation, restore the dots,
strip each piece and drop empty pieces. -/
def splitSentences (text : List Char) : List (List Char) :=
  let subbed := abbrevSub text
  let pieces := splitSentAux false ' ' [] subbed
  let restored := pieces.map replaceDot
  (restored.map stripL).filter (fun s => s ≠ [])

/-- Python `str.split()` with no argument: maximal runs of
non-whitespace characters. -/
def wordsAux : List Char → List Char → List (List Char)
  | [], cur => if cur = [] then [] else [cur.reverse]
  | c :: cs, cur =>
    if isSpace c then
      if cur = [] then wordsAux cs [] else cur.reverse :: wordsAux cs []
    else wordsAux cs (c :: cur)

def wordsL (cs : List Char) : List (List Char) := wordsAux cs []

/-- Python `" ".join(words)`. -/
def joinWords (ws : List (List Char)) : List Char := (ws.intersperse [' ']).flatten

/-- Accumulator state of the chunking loop: chunks emitted so far, the
word list of the running chunk, and the sentences of the running chunk. -/
structure ChunkState where
  chunks : List (List Char)
  currentWords : List (List Char)
  currentSentences : List (List Char)

/-- The overlap walk of `chunk_text` (lines 120-127): traverse the
finished sentences backwards, carrying whole sentences while the overlap
word budget is not exceeded. -/
def overlapWalk (overlap : ℕ) : List (List Char) → List (List Char) →
    List (List Char) → List (List Char) × List (List Char)
  | [], ow, os => (ow, os)
  | s :: rest, ow, os =>
    let sw := wordsL s
    if overlap < ow.length + sw.length then (ow, os)
    else overlapWalk overlap rest (sw ++ ow) (s :: os)

/-- One iteration of the sentence loop of `chunk_text` (lines 108-133):
close the running chunk when it is non-empty and would exceed the word
budget, seed the new chunk with the overlap carryover, then append the
sentence. -/
def chunkStep (chunk_size overlap : ℕ) (st : ChunkState)
    (sentence : List Char) : ChunkState :=
  let sw := wordsL sentence
  let closed :=
    if st.currentWords ≠ [] ∧ chunk_size < st.currentWords.length + sw.length then
      let p := overlapWalk overlap st.currentSentences.reverse [] []
      { chunks := st.chunks ++ [joinWords st.currentWords]
        currentWords := p.1
        currentSentences := p.2 }
    else st
  { chunks := closed.chunks
    currentWords := closed.currentWords ++ sw
    currentSentences := closed.currentSentences ++ [sentence] }

/-- Embedding of `VectorStoreService.chunk_text` (lines 94-142), returning
the chunk texts.  The random `chunk_id` attached to each chunk dict is an
opaque fresh token and is not modelled. -/
def chunkTextL (text : List Char) (chunk_size overlap : ℕ) : List (List Char) :=
  let sentences := splitSentences text
  if sentences = [] then []
  else
    let final := sentences.foldl (chunkStep chunk_size overlap) ⟨[], [], []⟩
    if final.currentWords = [] then final.chunks
    else final.chunks ++ [joinWords final.currentWords]

def chunkText (text : String) (chunk_size overlap : ℕ) : List String :=
  (chunkTextL text.data chunk_size overlap).map (fun c => String.mk c)

/-! ### Lemmas about the candidate dict -/

theorem insertIfAbsent_keys_nodup (m : List (String × Candidate)) (r : SearchResult)
    (h : (m.map Prod.fst).Nodup) : ((insertIfAbsent m r).map Prod.fst).Nodup := by
  unfold insertIfAbsent
  split
  · exact h
  · rename_i hhas
    rw [List.map_append]
    refine List.Nodup.append h (by simp) ?_
    intro a ha hb
    simp only [List.map_cons, List.map_nil, List.mem_singleton] at hb
    subst hb
    rcases List.mem_map.mp ha with ⟨p, hp, hpk⟩
    exact hhas (List.any_eq_true.mpr ⟨p, hp, by simp [hpk]⟩)

theorem foldl_insert_keys_nodup (stream : List SearchResult)
    (m : List (String × Candidate)) (h : (m.map Prod.fst).Nodup) :
    (((stream.foldl insertIfAbsent m)).map Prod.fst).Nodup := by
  induction stream generalizing m with
  | nil => exact h
  | cons r rest ih => exact ih _ (insertIfAbsent_keys_nodup m r h)

theorem lookupKey_isSome_of_mem (m : List (String × Candidate)) (k : String)
    (h : ∃ p ∈ m, p.1 = k) : (lookupKey m k).isSome := by
  unfold lookupKey
  rcases h with ⟨p, hp, hpk⟩
  have h2 : (m.find? (fun p => p.1 = k)).isSome :=
    List.find?_isSome.mpr ⟨p, hp, by simp [hpk]⟩
  cases hfind : m.find? (fun p => p.1 = k) with
  | none => rw [hfind] at h2; simp at h2
  | some q => simp [hfind]

theorem lookupKey_insertIfAbsent (m : List (String × Candidate)) (r : SearchResult)
    (k : String) :
    lookupKey (insertIfAbsent m r) k
      = (lookupKey m k).or (if srKey r = k then some (toCandidate r) else none) := by
  unfold insertIfAbsent
  split
  · rename_i hhas
    by_cases hk : srKey r = k
    · subst hk
      rcases List.any_eq_true.mp hhas with ⟨p, hp, hpk⟩
      simp only [decide_eq_true_eq] at hpk
      have hs : (lookupKey m (srKey r)).isSome :=
        lookupKey_isSome_of_mem m (srKey r) ⟨p, hp, hpk⟩
      cases hlk : lookupKey m (srKey r) with
      | none => rw [hlk] at hs; simp at hs
      | some c => simp [Option.or]
    · simp [hk, Option.or_none]
  · unfold lookupKey
    rw [List.find?_append]
    cases hfind : m.find? (fun p => p.1 = k) with
    | none =>
        simp only [Option.or, Option.map]
        by_cases hk : srKey r = k
        · simp [List.find?, hk]
        · simp [List.find?, hk]
    | some p =>
        simp [Option.or]

theorem lookupKey_foldl (stream : List SearchResult) (m : List (String × Candidate))
    (k : String) :
    lookupKey (stream.foldl insertIfAbsent m) k
      = (lookupKey m k).or
          (((stream.find? (fun r => srKey r = k))).map toCandidate) := by
  induction stream generalizing m with
  | nil => simp
  | cons r rest ih =>
      simp only [List.foldl_cons]
      rw [ih, lookupKey_insertIfAbsent, Option.or_assoc]
      congr 1
      by_cases hk : srKey r = k
      · rw [List.find?_cons_of_pos _ (by simp [hk])]
        simp [hk, Option.or]
      · rw [List.find?_cons_of_neg _ (by simp [hk])]
        simp [hk]

theorem foldl_insert_key_consistent (stream : List SearchResult)
    (m : List (String × Candidate)) (h : ∀ p ∈ m, p.1 = candKey p.2) :
    ∀ p ∈ stream.foldl insertIfAbsent m, p.1 = candKey p.2 := by
  induction stream generalizing m with
  | nil => exact h
  | cons r rest ih =>
      refine ih _ ?_
      intro p hp
      unfold insertIfAbsent at hp
      split at hp
      · exact h p hp
      · rcases List.mem_append.mp hp with h1 | h1
        · exact h p h1
        · simp only [List.mem_singleton] at h1
          subst h1
          rfl

/-- The pair a candidate represents. -/
def pairOf (c : Candidate) : String × ℕ := (c.document_id, c.chunk_index)

/-- The string key as a function of the pair. -/
def keyOfPair (p : String × ℕ) : String := p.1 ++ ":" ++ toString p.2

theorem candKey_eq_keyOfPair (c : Candidate) : candKey c = keyOfPair (pairOf c) := rfl

theorem pairs_nodup_of_keys_nodup (m : List (String × Candidate))
    (hcons : ∀ p ∈ m, p.1 = candKey p.2) (h : (m.map Prod.fst).Nodup) :
    ((m.map (fun p => pairOf p.2))).Nodup := by
  have hmap : m.map Prod.fst = (m.map (fun p => pairOf p.2)).map keyOfPair := by
    rw [List.map_map]
    exact List.map_congr_left (fun p hp => by
      rw [hcons p hp, candKey_eq_keyOfPair]; rfl)
  rw [hmap] at h
  exact List.Nodup.of_map _ h

theorem rrfMerge_pairs_perm (vres bres : List SearchResult)
    (cands : List Candidate) (k : ℕ) :
    ((rrfMerge vres bres cands k).map pairOf).Perm (cands.map pairOf) := by
  unfold rrfMerge
  have h1 := (sortDescBy_perm (fun c : Candidate => c.score)
    (cands.map (fun c =>
      { c with score :=
          rrfContrib k (buildRankMap vres (candKey c))
            + rrfContrib k (buildRankMap bres (candKey c)) }))).map pairOf
  simp only [List.map_map] at h1 ⊢
  convert h1 using 2

/-- C6: across all query variants and both rankers, each distinct
(document_id, chunk_index) key appears exactly once in the candidate set
built by `QueryEngine.query` (the list of pairs is duplicate-free), the
stored candidate for a key is built from the first search result carrying
that key in the insertion stream (first occurrence wins for text and
metadata, with score `0.0` and empty rank fields), and the fused output of
`_rrf_merge` also contains each distinct key exactly once, being a
permutation of the candidate values. -/
theorem dedup_invariant (vs bs : String → ℕ → List SearchResult)
    (queries : List String) (fetch_k : ℕ) (use_hybrid : Bool) :
    ((collectCandidates vs bs queries fetch_k use_hybrid).map (fun p => pairOf p.2)).Nodup
    ∧ (∀ k, lookupKey (collectCandidates vs bs queries fetch_k use_hybrid) k
        = ((candidateStream vs bs queries fetch_k use_hybrid).find?
            (fun r => srKey r = k)).map toCandidate)
    ∧ ∀ (vres bres : List SearchResult) (kk : ℕ),
        ((rrfMerge vres bres
            ((collectCandidates vs bs queries fetch_k use_hybrid).map (fun p => p.2))
            kk).map pairOf).Nodup := by
  have hkeys : ((collectCandidates vs bs queries fetch_k use_hybrid).map Prod.fst).Nodup :=
    foldl_insert_keys_nodup _ [] (by simp)
  have hcons : ∀ p ∈ collectCandidates vs bs queries fetch_k use_hybrid,
      p.1 = candKey p.2 :=
    foldl_insert_key_consistent _ [] (by simp)
  have hpairs := pairs_nodup_of_keys_nodup _ hcons hkeys
  refine ⟨hpairs, ?_, ?_⟩
  · intro k
    unfold collectCandidates
    rw [lookupKey_foldl]
    simp [lookupKey]
  · intro vres bres kk
    have hperm := rrfMerge_pairs_perm vres bres
      ((collectCandidates vs bs queries fetch_k use_hybrid).map (fun p => p.2)) kk
    rw [hperm.nodup_iff, List.map_map]
    exact hpairs

/-! ### Rank maps as list positions -/

/-- Index of the last occurrence of a key, which is what the dict-building
loop of `_rrf_merge` stores when a key repeats. -/
def posLast : List String → String → Option ℕ
  | [], _ => none
  | x :: xs, k =>
    match posLast xs k with
    | some j => some (j + 1)
    | none => if x = k then some 0 else none

/-- Index of the first occurrence of a key: the 0-based rank of a candidate
in a duplicate-free ranking. -/
def posOf : List String → String → Option ℕ
  | [], _ => none
  | x :: xs, k => if x = k then some 0 else (posOf xs k).map (· + 1)

theorem buildRankMap_enumFrom (l : List SearchResult) (i : ℕ)
    (acc : String → Option ℕ) (key : String) :
    ((List.enumFrom i l).foldl
        (fun acc p => fun k => if k = srKey p.2 then some p.1 else acc k) acc) key
      = match posLast (l.map srKey) key with
        | some j => some (i + j)
        | none => acc key := by
  induction l generalizing i acc with
  | nil => simp [posLast]
  | cons r rest ih =>
      rw [List.enumFrom_cons, List.foldl_cons, ih]
      simp only [List.map_cons, posLast]
      cases hp : posLast (rest.map srKey) key with
      | some j =>
          simp only []
          congr 1
          omega
      | none =>
          simp only []
          by_cases hk : srKey r = key
          · simp [hk]
          · simp [hk, Ne.symm hk]

theorem buildRankMap_eq_posLast (l : List SearchResult) (key : String) :
    buildRankMap l key = posLast (l.map srKey) key := by
  unfold buildRankMap
  rw [List.enum_eq_enumFrom, buildRankMap_enumFrom]
  cases posLast (l.map srKey) key <;> simp

theorem posLast_eq_none_of_not_mem (l : List String) (k : String) (h : k ∉ l) :
    posLast l k = none := by
  induction l with
  | nil => rfl
  | cons x xs ih =>
      simp only [List.mem_cons, not_or] at h
      simp [posLast, ih h.2, Ne.symm h.1]

theorem posLast_eq_posOf (l : List String) (k : String) (h : l.Nodup) :
    posLast l k = posOf l k := by
  induction l with
  | nil => rfl
  | cons x xs ih =>
      rcases List.nodup_cons.mp h with ⟨hx, hxs⟩
      by_cases hk : x = k
      · subst hk
        rw [posLast, posLast_eq_none_of_not_mem xs x hx]
        simp [posOf]
      · simp only [posLast, posOf, hk, if_neg hk, ih hxs]
        cases posOf xs k <;> simp

theorem rrfMerge_mem_shape (vres bres : List SearchResult)
    (cands : List Candidate) (k : ℕ) (c : Candidate)
    (hc : c ∈ rrfMerge vres bres cands k) :
    ∃ c0 ∈ cands,
      c = { c0 with
            score := rrfContrib k (buildRankMap vres (candKey c0))
              + rrfContrib k (buildRankMap bres (candKey c0)) } := by
  unfold rrfMerge at hc
  rw [(sortDescBy_perm _ _).mem_iff] at hc
  rcases List.mem_map.mp hc with ⟨c0, hc0, hsc⟩
  exact ⟨c0, hc0, hsc.symm⟩

/-- Core scoring fact shared by the RRF claims: every candidate coming out
of `_rrf_merge` carries the reciprocal-rank sum determined by the 0-based
positions of its key in the two (duplicate-free) rankings. -/
theorem rrfMerge_score (vres bres : List SearchResult) (cands : List Candidate)
    (k : ℕ) (hv : (vres.map srKey).Nodup) (hb : (bres.map srKey).Nodup)
    (c : Candidate) (hc : c ∈ rrfMerge vres bres cands k) :
    c.score = rrfContrib k (posOf (vres.map srKey) (candKey c))
            + rrfContrib k (posOf (bres.map srKey) (candKey c)) := by
  rcases rrfMerge_mem_shape vres bres cands k c hc with ⟨c0, _, hshape⟩
  have hkey : candKey c = candKey c0 := by rw [hshape]; rfl
  rw [hshape]
  simp only [hkey, buildRankMap_eq_posLast, posLast_eq_posOf _ _ hv,
    posLast_eq_posOf _ _ hb]
  simp [candKey, keyOf]

/-- C4: in a hybrid fusion pass the fused score of every candidate equals
the sum over the two rankers of `1 / (60 + rank)`, where rank is the
candidate key's 0-based position in that ranker's (duplicate-free) result
list and absence contributes 0; in particular rank 0 contributes exactly
`1/60`, absence contributes 0, and rank 1 contributes strictly less than
rank 0. -/
theorem rrf_formula (vres bres : List SearchResult) (cands : List Candidate)
    (hv : (vres.map srKey).Nodup) (hb : (bres.map srKey).Nodup) :
    (∀ c ∈ rrfMerge vres bres cands 60,
        c.score = rrfContrib 60 (posOf (vres.map srKey) (candKey c))
                + rrfContrib 60 (posOf (bres.map srKey) (candKey c)))
    ∧ rrfContrib 60 (some 0) = 1 / 60
    ∧ rrfContrib 60 none = 0
    ∧ rrfContrib 60 (some 1) < rrfContrib 60 (some 0) := by
  refine ⟨fun c hc => rrfMerge_score vres bres cands 60 hv hb c hc, ?_, rfl, ?_⟩
  · norm_num [rrfContrib]
  · norm_num [rrfContrib]

theorem rrf_formula_witness :
    ((([⟨"t", 0, "d", "n", 1⟩] : List SearchResult).map srKey).Nodup
      ∧ (([⟨"u", 1, "d", "n", 2⟩] : List SearchResult).map srKey).Nodup)
    ∧ ((∀ c ∈ rrfMerge [⟨"t", 0, "d", "n", 1⟩] [⟨"u", 1, "d", "n", 2⟩]
            [⟨"t", 0, "d", "n", 0, none, none⟩] 60,
          c.score = rrfContrib 60 (posOf (([⟨"t", 0, "d", "n", 1⟩] :
                  List SearchResult).map srKey) (candKey c))
              + rrfContrib 60 (posOf (([⟨"u", 1, "d", "n", 2⟩] :
                  List SearchResult).map srKey) (candKey c)))
        ∧ rrfContrib 60 (some 0) = 1 / 60
        ∧ rrfContrib 60 none = 0
        ∧ rrfContrib 60 (some 1) < rrfContrib 60 (some 0)) :=
  ⟨⟨by decide, by decide⟩, rrf_formula _ _ _ (by decide) (by decide)⟩

/-- C5: a candidate whose key sits at rank 0 of both the dense and the
sparse ranking receives an RRF score exactly twice that of a candidate
whose key sits at rank 0 of exactly one of the two rankings (the rankings
being duplicate-free, possibly from a different fusion pass). -/
theorem rrf_additivity (v1 b1 v2 b2 : List SearchResult)
    (cs1 cs2 : List Candidate) (c1 c2 : Candidate)
    (hv1 : (v1.map srKey).Nodup) (hb1 : (b1.map srKey).Nodup)
    (hv2 : (v2.map srKey).Nodup) (hb2 : (b2.map srKey).Nodup)
    (hc1 : c1 ∈ rrfMerge v1 b1 cs1 60) (hc2 : c2 ∈ rrfMerge v2 b2 cs2 60)
    (h1v : posOf (v1.map srKey) (candKey c1) = some 0)
    (h1b : posOf (b1.map srKey) (candKey c1) = some 0)
    (h2 : (posOf (v2.map srKey) (candKey c2) = some 0
            ∧ posOf (b2.map srKey) (candKey c2) = none)
        ∨ (posOf (v2.map srKey) (candKey c2) = none
            ∧ posOf (b2.map srKey) (candKey c2) = some 0)) :
    c1.score = 2 * c2.score := by
  have e1 := rrfMerge_score v1 b1 cs1 60 hv1 hb1 c1 hc1
  have e2 := rrfMerge_score v2 b2 cs2 60 hv2 hb2 c2 hc2
  rw [h1v, h1b] at e1
  rcases h2 with ⟨ha, hbn⟩ | ⟨ha, hbn⟩ <;> rw [ha, hbn] at e2 <;>
    rw [e1, e2] <;> norm_num [rrfContrib]

theorem rrf_additivity_witness :
    ((([⟨"t", 0, "d", "n", 1⟩] : List SearchResult).map srKey).Nodup
      ∧ (([⟨"t", 0, "d", "n", 2⟩] : List SearchResult).map srKey).Nodup
      ∧ (([⟨"u", 1, "d", "n", 1⟩] : List SearchResult).map srKey).Nodup
      ∧ (([] : List SearchResult).map srKey).Nodup)
    ∧ (⟨"t", 0, "d", "n", 1/30, none, none⟩ : Candidate) ∈
        rrfMerge [⟨"t", 0, "d", "n", 1⟩] [⟨"t", 0, "d", "n", 2⟩]
          [⟨"t", 0, "d", "n", 0, none, none⟩] 60
    ∧ (⟨"u", 1, "d", "n", 1/60, none, none⟩ : Candidate) ∈
        rrfMerge [⟨"u", 1, "d", "n", 1⟩] []
          [⟨"u", 1, "d", "n", 0, none, none⟩] 60
    ∧ posOf (([⟨"t", 0, "d", "n", 1⟩] : List SearchResult).map srKey)
        (candKey (⟨"t", 0, "d", "n", 1/30, none, none⟩ : Candidate)) = some 0
    ∧ posOf (([⟨"t", 0, "d", "n", 2⟩] : List SearchResult).map srKey)
        (candKey (⟨"t", 0, "d", "n", 1/30, none, none⟩ : Candidate)) = some 0
    ∧ posOf (([⟨"u", 1, "d", "n", 1⟩] : List SearchResult).map srKey)
        (candKey (⟨"u", 1, "d", "n", 1/60, none, none⟩ : Candidate)) = some 0
    ∧ posOf (([] : List SearchResult).map srKey)
        (candKey (⟨"u", 1, "d", "n", 1/60, none, none⟩ : Candidate)) = none
    ∧ (⟨"t", 0, "d", "n", 1/30, none, none⟩ : Candidate).score
        = 2 * (⟨"u", 1, "d", "n", 1/60, none, none⟩ : Candidate).score := by
  have hm1 : (⟨"t", 0, "d", "n", 1/30, none, none⟩ : Candidate) ∈
      rrfMerge [⟨"t", 0, "d", "n", 1⟩] [⟨"t", 0, "d", "n", 2⟩]
        [⟨"t", 0, "d", "n", 0, none, none⟩] 60 := by
    norm_num +decide [rrfMerge, sortDescBy, List.insertionSort, List.orderedInsert,
      buildRankMap, rrfContrib, candKey, srKey, keyOf, List.enum, List.enumFrom]
  have hm2 : (⟨"u", 1, "d", "n", 1/60, none, none⟩ : Candidate) ∈
      rrfMerge [⟨"u", 1, "d", "n", 1⟩] []
        [⟨"u", 1, "d", "n", 0, none, none⟩] 60 := by
    norm_num +decide [rrfMerge, sortDescBy, List.insertionSort, List.orderedInsert,
      buildRankMap, rrfContrib, candKey, srKey, keyOf, List.enum, List.enumFrom]
  refine ⟨⟨by decide, by decide, by decide, by decide⟩, hm1, hm2,
    by decide, by decide, by decide, by decide, ?_⟩
  exact rrf_additivity _ _ _ _ _ _ _ _ (by decide) (by decide) (by decide) (by decide)
    hm1 hm2 (by decide) (by decide) (Or.inl ⟨by decide, by decide⟩)

/-- Dense search results for the C8 run: the original query retrieves one
candidate; the provider-error banner, used as a query variant, retrieves
another. -/
def c8Vec : String → ℕ → List SearchResult := fun q _ =>
  if q = "q" then [⟨"tA", 0, "dA", "n", 1/2⟩]
  else if q = groqApiErrorBanner "ReadTimeout" then [⟨"tB", 1, "dB", "n", 2/5⟩]
  else []

/-- Environment for the C8 run: the expansion collaborator raises a
timeout inside the Groq stream; as `llm.py` is written, `generate_stream`
catches it and `generate` returns the Groq error banner, so
`_expand_query` receives a normal response and nothing reaches the
engine's expansion-failure except-branch. -/
def env8 : Env :=
  { vectorSearchFn := c8Vec
    bm25SearchFn := fun _ _ => []
    generate := .ok (groqApiErrorBanner "ReadTimeout")
    rerankCall := fun _ _ _ => .error () }

/-- C8 evaluated at its failing input: expansion is enabled and the
collaborator times out (or raises).  No error is surfaced and the original
query is variant zero, but the pipeline does not proceed with the original
query as the only variant: `llm_service.generate` swallows the failure and
returns a warning banner, `_expand_query` keeps that banner (non-empty,
longer than 5 characters) as an alternative phrasing, and the engine runs
a second retrieval pass on the banner text, which here contributes a
second candidate to the results.  The engine's except-branch at
`query_engine.py` lines 68-69, which would keep `queries = [query]`, never
runs for collaborator failures. -/
theorem expansion_failure_banner_variant_eval :
    buildQueries (.ok (groqApiErrorBanner "ReadTimeout")) "q" true
      = ["q", groqApiErrorBanner "ReadTimeout"]
    ∧ (buildQueries (.ok (groqApiErrorBanner "ReadTimeout")) "q" true).head? = some "q"
    ∧ (queryPipeline env8 "q" 2 false true false).expanded_queries
      = [groqApiErrorBanner "ReadTimeout"]
    ∧ (queryPipeline env8 "q" 2 false true false).total_candidates = 2
    ∧ (queryPipeline env8 "q" 2 false true false).results
      = [.fromCandidate ⟨"tA", 0, "dA", "n", 0, none, none⟩,
         .fromCandidate ⟨"tB", 1, "dB", "n", 0, none, none⟩] := by
  refine ⟨?_, ?_, ?_, ?_, ?_⟩ <;>
    norm_num +decide [queryPipeline, buildQueries, expandQuery, splitNl, stripL,
      collectCandidates, candidateStream, insertIfAbsent, toCandidate, srKey, candKey,
      keyOf, sortDescBy, List.insertionSort, List.orderedInsert, env8, c8Vec,
      groqApiErrorBanner]

/-! ### BM25 search contract -/

theorem pairwise_filterMap {α β : Type} (f : α → Option β)
    (R : α → α → Prop) (S : β → β → Prop) (l : List α)
    (h : List.Pairwise R l)
    (hf : ∀ a b, R a b → ∀ x, f a = some x → ∀ y, f b = some y → S x y) :
    List.Pairwise S (l.filterMap f) := by
  induction l with
  | nil => simp
  | cons a l ih =>
      rcases List.pairwise_cons.mp h with ⟨ha, hl⟩
      cases hfa : f a with
      | none =>
          rw [List.filterMap_cons_none hfa]
          exact ih hl
      | some x =>
          rw [List.filterMap_cons_some hfa]
          refine List.pairwise_cons.mpr ⟨?_, ih hl⟩
          intro y hy
          rcases List.mem_filterMap.mp hy with ⟨b, hb, hfb⟩
          exact hf a b (ha b hb) x hfa y hfb

theorem bm25_select_spec (scores : List ℚ) (metadata : List ChunkMeta) (top_k : ℕ) :
    List.Pairwise (fun a b : SearchResult => b.score ≤ a.score)
      (((sortDescBy (fun i => scores.getD i 0) (List.range scores.length)).take
          top_k).filterMap
        (fun idx => if scores.getD idx 0 ≤ 0 then none
          else (metadata.get? idx).map (fun meta =>
            ({ chunk_text := meta.chunk_text
               chunk_index := meta.chunk_index
               document_id := meta.document_id
               document_name := meta.document_name
               score := scores.getD idx 0 } : SearchResult))))
    ∧ ∀ r ∈ (((sortDescBy (fun i => scores.getD i 0) (List.range scores.length)).take
          top_k).filterMap
        (fun idx => if scores.getD idx 0 ≤ 0 then none
          else (metadata.get? idx).map (fun meta =>
            ({ chunk_text := meta.chunk_text
               chunk_index := meta.chunk_index
               document_id := meta.document_id
               document_name := meta.document_name
               score := scores.getD idx 0 } : SearchResult)))), 0 < r.score := by
  have hsel : ∀ (idx : ℕ) (r : SearchResult),
      (if scores.getD idx 0 ≤ 0 then none
        else (metadata.get? idx).map (fun meta =>
          ({ chunk_text := meta.chunk_text
             chunk_index := meta.chunk_index
             document_id := meta.document_id
             document_name := meta.document_name
             score := scores.getD idx 0 } : SearchResult))) = some r →
      r.score = scores.getD idx 0 ∧ 0 < scores.getD idx 0 := by
    intro idx r h
    split at h
    · exact Option.noConfusion h
    · rename_i hpos
      cases hm : metadata.get? idx with
      | none => rw [hm] at h; simp at h
      | some meta =>
          rw [hm] at h
          simp only [Option.map_some'] at h
          cases h
          exact ⟨rfl, lt_of_not_le hpos⟩
  constructor
  · refine pairwise_filterMap _
      (fun i j : ℕ => scores.getD j 0 ≤ scores.getD i 0) _ _ ?_ ?_
    · exact List.Pairwise.sublist (List.take_sublist _ _)
        (sortDescBy_sorted (fun i => scores.getD i 0) (List.range scores.length))
    · intro a b hR x hx y hy
      rw [(hsel a x hx).1, (hsel b y hy).1]
      exact hR
  · intro r hr
    rcases List.mem_filterMap.mp hr with ⟨idx, _, hidx⟩
    rcases hsel idx r hidx with ⟨he, hp⟩
    rw [he]
    exact hp

/-- C9: every `BM25Index.search` call returns a list ordered by BM25 score
descending, every returned result has a strictly positive score (scores at
most 0 are skipped), and an empty tokenized query or an empty corpus gives
the empty list. -/
theorem bm25_search_contract (st : BM25State) (q : String) (top_k : ℕ) :
    List.Pairwise (fun a b : SearchResult => b.score ≤ a.score) (bm25Search st q top_k)
    ∧ (∀ r ∈ bm25Search st q top_k, 0 < r.score)
    ∧ (tokenize q = [] → bm25Search st q top_k = [])
    ∧ (st.corpus = [] → bm25Search st q top_k = []) := by
  by_cases hg : ¬ st.indexLoaded ∨ st.corpus = []
  · have h0 : bm25Search st q top_k = [] := by
      simp only [bm25Search]
      rw [if_pos hg]
    simp [h0]
  · by_cases ht : tokenize q = []
    · have h0 : bm25Search st q top_k = [] := by
        simp only [bm25Search]
        rw [if_neg hg, if_pos ht]
      simp [h0]
    · have hres : bm25Search st q top_k
        = ((sortDescBy (fun i => (st.getScores (tokenize q)).getD i 0)
            (List.range (st.getScores (tokenize q)).length)).take top_k).filterMap
          (fun idx => if (st.getScores (tokenize q)).getD idx 0 ≤ 0 then none
            else (st.metadata.get? idx).map (fun meta =>
              ({ chunk_text := meta.chunk_text
                 chunk_index := meta.chunk_index
                 document_id := meta.document_id
                 document_name := meta.document_name
                 score := (st.getScores (tokenize q)).getD idx 0 } : SearchResult))) := by
        simp only [bm25Search]
        rw [if_neg hg, if_neg ht]
      rcases bm25_select_spec (st.getScores (tokenize q)) st.metadata top_k with ⟨h1, h2⟩
      rw [hres]
      exact ⟨h1, h2, fun h => absurd h ht, fun h => absurd (Or.inr h) hg⟩

theorem bm25_search_contract_witness :
    tokenize " " = []
    ∧ bm25Search ⟨[["ab"]], [⟨"t", 0, "d", "n"⟩], true, fun _ => [1]⟩ " " 5 = [] :=
  ⟨by decide,
   (bm25_search_contract ⟨[["ab"]], [⟨"t", 0, "d", "n"⟩], true, fun _ => [1]⟩
      " " 5).2.2.1 (by decide)⟩

/-- C10: a `VectorStoreService.search` call returns at most
`min(top_k, ntotal)` results (given that the similarity structure returns
exactly `min(top_k, ntotal)` rows, as FAISS does), and every returned
result is resolved from the metadata array: positions that are negative or
not below `len(self._chunks)` are skipped rather than dereferenced, so a
misaligned or partial index cannot cause an out-of-bounds access. -/
theorem vector_search_safe (st : VSState) (q : String) (top_k : ℕ)
    (hlen : (st.faissSearch q (min top_k st.ntotal)).length = min top_k st.ntotal) :
    (vectorSearch st q top_k).length ≤ min top_k st.ntotal
    ∧ ∀ r ∈ vectorSearch st q top_k, ∃ m ∈ st.chunks,
        r.chunk_text = m.chunk_text ∧ r.chunk_index = m.chunk_index
        ∧ r.document_id = m.document_id ∧ r.document_name = m.document_name := by
  by_cases hz : st.ntotal = 0
  · constructor
    · simp [vectorSearch, hz]
    · intro r hr
      simp [vectorSearch, hz] at hr
  · have hres : vectorSearch st q top_k
      = (st.faissSearch q (min top_k st.ntotal)).filterMap (fun p =>
          if p.2 < 0 ∨ (st.chunks.length : ℤ) ≤ p.2 then none
          else (st.chunks.get? p.2.toNat).map (fun meta =>
            { chunk_text := meta.chunk_text
              chunk_index := meta.chunk_index
              document_id := meta.document_id
              document_name := meta.document_name
              score := p.1 })) := by
      simp only [vectorSearch]
      rw [if_neg hz]
    constructor
    · rw [hres]
      exact le_trans (List.length_filterMap_le _ _) (le_of_eq hlen)
    · intro r hr
      rw [hres] at hr
      rcases List.mem_filterMap.mp hr with ⟨p, _, hp⟩
      split at hp
      · exact Option.noConfusion hp
      · cases hm : st.chunks.get? p.2.toNat with
        | none => rw [hm] at hp; exact Option.noConfusion hp
        | some meta =>
            rw [hm] at hp
            simp only [Option.map_some'] at hp
            cases hp
            exact ⟨meta, List.get?_mem hm, rfl, rfl, rfl, rfl⟩

theorem vector_search_safe_witness :
    ((VSState.mk [⟨"t", 0, "d", "n"⟩] 2
        (fun _ _ => [(1, 0), (1, 5)])).faissSearch "x" (min 2 2)).length = min 2 2
    ∧ ((vectorSearch (VSState.mk [⟨"t", 0, "d", "n"⟩] 2
          (fun _ _ => [(1, 0), (1, 5)])) "x" 2).length ≤ min 2 2
      ∧ ∀ r ∈ vectorSearch (VSState.mk [⟨"t", 0, "d", "n"⟩] 2
          (fun _ _ => [(1, 0), (1, 5)])) "x" 2,
        ∃ m ∈ (VSState.mk [⟨"t", 0, "d", "n"⟩] 2
            (fun _ _ => [(1, 0), (1, 5)])).chunks,
          r.chunk_text = m.chunk_text ∧ r.chunk_index = m.chunk_index
          ∧ r.document_id = m.document_id ∧ r.document_name = m.document_name) :=
  ⟨rfl, vector_search_safe _ "x" 2 rfl⟩

/-! ### Behaviour on empty and whitespace-only queries -/

theorem splitRunsAux_nil (l : List Char) (h : ∀ c ∈ l, isTokenChar c = false) :
    splitRunsAux l [] = [] := by
  induction l with
  | nil => rfl
  | cons c cs ih =>
      have hc := h c (List.mem_cons_self c cs)
      simp only [splitRunsAux, hc, Bool.false_eq_true, if_false, if_pos rfl]
      exact ih (fun x hx => h x (List.mem_cons_of_mem c hx))

theorem isTokenChar_toLower_of_space (c : Char) (h : isSpace c = true) :
    isTokenChar c.toLower = false := by
  have h2 : c = ' ' ∨ c = '\t' ∨ c = '\n' ∨ c = '\x0d' ∨ c = '\x0b' ∨ c = '\x0c' := by
    simpa [isSpace, or_assoc] using h
  rcases h2 with h | h | h | h | h | h <;> subst h <;> decide

theorem tokenize_whitespace (q : String) (h : q.data.all isSpace = true) :
    tokenize q = [] := by
  have h2 : ∀ c ∈ q.data.map Char.toLower, isTokenChar c = false := by
    intro c hc
    rcases List.mem_map.mp hc with ⟨c0, hc0, rfl⟩
    exact isTokenChar_toLower_of_space c0 (List.all_eq_true.mp h c0 hc0)
  simp [tokenize, splitRunsAux_nil _ h2]

/-- C3 amended: an empty or whitespace-only query string is not
special-cased by `QueryEngine.query`: the dense sub-search is still invoked
and its candidates are returned (the result need not be empty, see the
counterexample), while the sparse sub-search contributes nothing because
the tokenized query is empty — with expansion off, the candidate set built
with hybrid search on equals the one built with hybrid search off. -/
theorem whitespace_query_amended (q : String) (hq : q.data.all isSpace = true)
    (st : BM25State) (vs : String → ℕ → List SearchResult) (fetch_k top_k : ℕ) :
    bm25Search st q top_k = []
    ∧ collectCandidates vs (fun q2 k => bm25Search st q2 k) [q] fetch_k true
      = collectCandidates vs (fun q2 k => bm25Search st q2 k) [q] fetch_k false := by
  have ht := tokenize_whitespace q hq
  have hb : ∀ k, bm25Search st q k = [] := by
    intro k
    simp [bm25Search, ht]
  refine ⟨hb top_k, ?_⟩
  unfold collectCandidates candidateStream
  simp [hb]

/-- Dense store with one indexed chunk; the similarity structure returns
its single neighbour for every query embedding, as FAISS does for any
query vector, including the embedding of the empty string. -/
def c3Vst : VSState :=
  { chunks := [⟨"tA", 0, "dA", "n"⟩]
    ntotal := 1
    faissSearch := fun _ k => if k = 0 then [] else [(9/10, 0)] }

/-- Sparse index with one document. -/
def c3Bst : BM25State :=
  { corpus := [["tok"]]
    metadata := [⟨"tA", 0, "dA", "n"⟩]
    indexLoaded := true
    getScores := fun _ => [1] }

def env3 : Env :=
  { vectorSearchFn := fun q k => vectorSearch c3Vst q k
    bm25SearchFn := fun q k => bm25Search c3Bst q k
    generate := .error "expansion disabled"
    rerankCall := fun q c k => .ok (rerank none q c k) }

theorem whitespace_query_amended_witness :
    (" ".data.all isSpace = true)
    ∧ (bm25Search c3Bst " " 5 = []
      ∧ collectCandidates (fun _ _ => []) (fun q2 k => bm25Search c3Bst q2 k)
          [" "] 15 true
        = collectCandidates (fun _ _ => []) (fun q2 k => bm25Search c3Bst q2 k)
          [" "] 15 false) :=
  ⟨by decide, whitespace_query_amended " " (by decide) c3Bst (fun _ _ => []) 15 5⟩

/-- C3 counterexample: on the empty query string, `QueryEngine.query`
(embedded with the dense and sparse stores of `env3`) does invoke the dense
sub-search and returns its candidate: the results are non-empty and one
candidate was collected, refuting the claim that an empty query yields
empty results without invoking any sub-search. -/
theorem empty_query_counterexample :
    (queryPipeline env3 "" 1 false false true).results ≠ []
    ∧ (queryPipeline env3 "" 1 false false true).total_candidates = 1 := by
  norm_num +decide [queryPipeline, buildQueries, collectCandidates, candidateStream,
    insertIfAbsent, toCandidate, srKey, candKey, keyOf, rrfMerge, buildRankMap,
    rrfContrib, sortDescBy, List.insertionSort, List.orderedInsert, env3, c3Vst, c3Bst,
    vectorSearch, bm25Search, tokenize, splitRunsAux, trimRun, List.enum, List.enumFrom]

/-! ### Chunker invariants -/

/-- A word list that is a concatenation of the word lists of whole
sentences drawn from `sentences`: the shape of every chunk the chunker
emits, which is what it means for the chunker never to split a sentence. -/
def sentenceConcat (sentences : List (List Char)) (ws : List (List Char)) : Prop :=
  ∃ ss : List (List Char), (∀ s ∈ ss, s ∈ sentences) ∧ ws = (ss.map wordsL).flatten

/-- Loop invariant of the chunking fold. -/
def chunkInv (sentences : List (List Char)) (st : ChunkState) : Prop :=
  st.currentWords = (st.currentSentences.map wordsL).flatten
  ∧ (∀ s ∈ st.currentSentences, s ∈ sentences)
  ∧ ∀ ch ∈ st.chunks, ∃ ws, sentenceConcat sentences ws ∧ ch = joinWords ws

theorem overlapWalk_spec (sentences : List (List Char)) (overlap : ℕ) :
    ∀ (l ow os : List (List Char)),
      ow = (os.map wordsL).flatten → (∀ s ∈ os, s ∈ sentences) →
      (∀ s ∈ l, s ∈ sentences) →
      (overlapWalk overlap l ow os).1
          = (((overlapWalk overlap l ow os).2).map wordsL).flatten
        ∧ ∀ s ∈ (overlapWalk overlap l ow os).2, s ∈ sentences := by
  intro l
  induction l with
  | nil => intro ow os h1 h2 _; exact ⟨h1, h2⟩
  | cons s rest ih =>
      intro ow os h1 h2 hl
      simp only [overlapWalk]
      split
      · exact ⟨h1, h2⟩
      · refine ih (wordsL s ++ ow) (s :: os) ?_ ?_ ?_
        · simp [h1]
        · intro x hx
          rcases List.mem_cons.mp hx with hx | hx
          · subst hx; exact hl _ (List.mem_cons_self _ _)
          · exact h2 x hx
        · intro x hx
          exact hl x (List.mem_cons_of_mem s hx)

theorem chunkStep_inv (sentences : List (List Char)) (chunk_size overlap : ℕ)
    (st : ChunkState) (sentence : List Char)
    (hst : chunkInv sentences st) (hs : sentence ∈ sentences) :
    chunkInv sentences (chunkStep chunk_size overlap st sentence) := by
  rcases hst with ⟨h1, h2, h3⟩
  simp only [chunkStep]
  split
  · rename_i hclose
    have hrev : ∀ s ∈ st.currentSentences.reverse, s ∈ sentences := by
      intro x hx
      exact h2 x (List.mem_reverse.mp hx)
    rcases overlapWalk_spec sentences overlap st.currentSentences.reverse [] []
        rfl (by intro x hx; cases hx) hrev with ⟨hw1, hw2⟩
    refine ⟨?_, ?_, ?_⟩
    · simp only [List.map_append, List.flatten_append]
      simp [hw1]
    · intro x hx
      rcases List.mem_append.mp hx with hx | hx
      · exact hw2 x hx
      · simp only [List.mem_singleton] at hx
        subst hx
        exact hs
    · intro ch hch
      rcases List.mem_append.mp hch with hch | hch
      · exact h3 ch hch
      · simp only [List.mem_singleton] at hch
        subst hch
        exact ⟨st.currentWords, ⟨st.currentSentences, h2, h1⟩, rfl⟩
  · refine ⟨?_, ?_, h3⟩
    · simp only [List.map_append, List.flatten_append]
      simp [h1]
    · intro x hx
      rcases List.mem_append.mp hx with hx | hx
      · exact h2 x hx
      · simp only [List.mem_singleton] at hx
        subst hx
        exact hs

theorem chunkFold_inv (sentences : List (List Char)) (chunk_size overlap : ℕ) :
    ∀ (l : List (List Char)) (st : ChunkState),
      chunkInv sentences st → (∀ s ∈ l, s ∈ sentences) →
      chunkInv sentences (l.foldl (chunkStep chunk_size overlap) st) := by
  intro l
  induction l with
  | nil => intro st h _; exact h
  | cons s rest ih =>
      intro st h hl
      exact ih _ (chunkStep_inv sentences chunk_size overlap st s h
          (hl s (List.mem_cons_self s rest)))
        (fun x hx => hl x (List.mem_cons_of_mem s hx))

/-- C7 amended: the chunker never splits a sentence — every chunk it emits
is the space-join of a concatenation of whole sentences of the input (so a
sentence whose word count exceeds `chunk_size` is carried whole inside a
single chunk, though that chunk may also start with overlap sentences
carried over from the previous chunk, see the counterexample) — and the
empty input yields the empty chunk sequence. -/
theorem chunker_never_splits (text : String) (chunk_size overlap : ℕ) :
    (∀ chunk ∈ chunkText text chunk_size overlap,
      ∃ ss : List (List Char), (∀ s ∈ ss, s ∈ splitSentences text.data)
        ∧ chunk = String.mk ((ss.map wordsL).flatten.intersperse [' ']).flatten)
    ∧ chunkText "" chunk_size overlap = [] := by
  constructor
  · intro chunk hchunk
    rcases List.mem_map.mp hchunk with ⟨cl, hcl, hmk⟩
    subst hmk
    simp only [chunkTextL] at hcl
    split at hcl
    · cases hcl
    · have hinit : chunkInv (splitSentences text.data) ⟨[], [], []⟩ := by
        refine ⟨rfl, ?_, ?_⟩
        · intro x hx; cases hx
        · intro ch hch; cases hch
      have hinv := chunkFold_inv (splitSentences text.data) chunk_size overlap
        (splitSentences text.data) ⟨[], [], []⟩ hinit (fun x hx => hx)
      rcases hinv with ⟨h1, h2, h3⟩
      have hget : ∃ ws, sentenceConcat (splitSentences text.data) ws
          ∧ cl = joinWords ws := by
        split at hcl
        · exact h3 cl hcl
        · rcases List.mem_append.mp hcl with hcl | hcl
          · exact h3 cl hcl
          · simp only [List.mem_singleton] at hcl
            subst hcl
            exact ⟨_, ⟨_, h2, h1⟩, rfl⟩
      rcases hget with ⟨ws, ⟨ss, hss, hws⟩, hcl2⟩
      subst hws
      exact ⟨ss, hss, by rw [hcl2]; rfl⟩
  · rfl

theorem chunker_never_splits_witness :
    ("Hi." ∈ chunkText "Hi." 100 10)
    ∧ ∃ ss : List (List Char), (∀ s ∈ ss, s ∈ splitSentences "Hi.".data)
        ∧ "Hi." = String.mk ((ss.map wordsL).flatten.intersperse [' ']).flatten :=
  ⟨by decide, (chunker_never_splits "Hi." 100 10).1 "Hi." (by decide)⟩

/-- C7 counterexample: with `chunk_size = 5` and `overlap = 3`, the
sentence of ten words exceeds the chunk size and is indeed not split, but
it does not become its own chunk: the single chunk containing it also
carries the overlap sentence `Aa bb.` in front, so no chunk equals the
oversized sentence. -/
theorem oversized_sentence_counterexample :
    ("W1 w2 w3 w4 w5 w6 w7 w8 w9 w10.".data
        ∈ splitSentences "Aa bb. W1 w2 w3 w4 w5 w6 w7 w8 w9 w10.".data)
    ∧ 5 < (wordsL "W1 w2 w3 w4 w5 w6 w7 w8 w9 w10.".data).length
    ∧ "W1 w2 w3 w4 w5 w6 w7 w8 w9 w10."
        ∉ chunkText "Aa bb. W1 w2 w3 w4 w5 w6 w7 w8 w9 w10." 5 3
    ∧ chunkText "Aa bb. W1 w2 w3 w4 w5 w6 w7 w8 w9 w10." 5 3
        = ["Aa bb.", "Aa bb. W1 w2 w3 w4 w5 w6 w7 w8 w9 w10."] := by
  refine ⟨by decide, by decide, by decide, by decide⟩

/-! ### Concrete pipeline runs exhibiting the two divergences -/

/-- Dense search results for the C1 run. -/
def c1Vec : String → ℕ → List SearchResult := fun q _ =>
  if q = "q" then [⟨"tA", 0, "dA", "n", 1/2⟩, ⟨"tB", 1, "dA", "n", 3/10⟩] else []

/-- Sparse search results for the C1 run. -/
def c1Bm : String → ℕ → List SearchResult := fun q _ =>
  if q = "q" then [⟨"tB", 1, "dA", "n", 2⟩] else []

/-- Environment for the C1 run: the cross-encoder model cannot be loaded,
so `reranker_service.rerank` runs its internal fallback (`rerank none`) and
does not raise — which is exactly how the call comes back to
`QueryEngine.query`. -/
def env1 : Env :=
  { vectorSearchFn := c1Vec
    bm25SearchFn := c1Bm
    generate := .error "expansion disabled"
    rerankCall := fun q c k => .ok (rerank none q c k) }

/-- C1 evaluated at its failing input: reranking is enabled and the
pairwise model cannot be loaded.  The pipeline does not fail, the results
are the first `top_k` fused candidates in fused order (candidate `dA:1` is
ranked first by RRF with score `1/61 + 1/60 = 121/3660`) and
`rerank_score` equals `original_score` — but `reranked` comes back `true`,
not `false`: the reranker swallows the load failure, so the engine's
failure branch (which would clear the flag) never runs, and the caller is
told a rescoring happened. -/
theorem reranker_fallback_flag_eval :
    (queryPipeline env1 "q" 1 true false true).reranked = true
    ∧ (queryPipeline env1 "q" 1 true false true).results
      = [.fromReranked "tB" 1 "dA" "n" (121/3660) (121/3660)]
    ∧ rerank none "q"
        (rrfMerge (c1Vec "q" 3) (c1Bm "q" 3)
          ((collectCandidates c1Vec c1Bm ["q"] 3 true).map (fun p => p.2)) 60) 1
      = [⟨"tB", 1, "dA", "n", 121/3660, 121/3660⟩] := by
  refine ⟨?_, ?_, ?_⟩ <;>
    norm_num +decide [queryPipeline, buildQueries, collectCandidates, candidateStream,
      insertIfAbsent, toCandidate, srKey, candKey, keyOf, rrfMerge, buildRankMap,
      rrfContrib, sortDescBy, List.insertionSort, List.orderedInsert, rerank, env1,
      c1Vec, c1Bm, List.enum, List.enumFrom]

/-- Dense search results for the C2 run: the original query retrieves
candidate `dA` with similarity `1/2`; the expanded variant retrieves
candidate `dD` with similarity `9/10`. -/
def c2Vec : String → ℕ → List SearchResult := fun q _ =>
  if q = "orig" then [⟨"tA", 0, "dA", "n", 1/2⟩]
  else if q = "variant query" then [⟨"tD", 0, "dD", "n", 9/10⟩] else []

def env2 : Env :=
  { vectorSearchFn := c2Vec
    bm25SearchFn := fun _ _ => []
    generate := .ok "variant query"
    rerankCall := fun _ _ _ => .error () }

/-- C2 evaluated at its failing input: hybrid search off, expansion on.
Candidate dicts are created with `score = 0.0` and the dense similarity
from `SearchResult.score` is never copied in, so the vector-score sort is a
no-op on an all-zero key and the pipeline returns first-insertion order
`[dA, dD]` — even though the dense similarities were `1/2` for `dA` and
`9/10` for `dD`, so the dense-score-descending order would be `[dD, dA]`. -/
theorem vector_sort_dropped_score_eval :
    (queryPipeline env2 "orig" 2 false true false).results
      = [.fromCandidate ⟨"tA", 0, "dA", "n", 0, none, none⟩,
         .fromCandidate ⟨"tD", 0, "dD", "n", 0, none, none⟩]
    ∧ c2Vec "orig" 6 = [⟨"tA", 0, "dA", "n", 1/2⟩]
    ∧ c2Vec "variant query" 6 = [⟨"tD", 0, "dD", "n", 9/10⟩]
    ∧ ((1 : ℚ)/2 < 9/10) := by
  refine ⟨?_, ?_, ?_, ?_⟩ <;>
    norm_num +decide [queryPipeline, buildQueries, expandQuery, splitNl, stripL,
      collectCandidates, candidateStream, insertIfAbsent, toCandidate, srKey, candKey,
      keyOf, sortDescBy, List.insertionSort, List.orderedInsert, env2, c2Vec]

end ClinicalRag
